import Mathlib

/-!
Verification of the Booking Capacity and Availability Engine of
space_capacity_analysis.py.

Modelling conventions. Timestamps are whole seconds since a fixed epoch,
measured in the single analysis timezone, as Nat. Calendar dates are day
indices: the date of a timestamp t is t / 86400. Operating intervals and
normalized booked intervals are pairs (start, close) of timestamps. A raw
booking record carries an optional parsed value per field: a field is none
when it is missing or unparseable, which is exactly the condition that makes
the per-record try/except in the source skip the record. The float duration
argument of find_next_available_slot is taken after the source conversion
duration_minutes = int(duration_hours * 60), i.e. as whole minutes.
Rational numbers stand for the float hour totals of the source.
-/

/-- Date index of a timestamp: the calendar day it falls on. -/
def dateOf (t : Nat) : Nat := t / 86400

/-- Raw booking record as consumed by calculate_booked_hours and
find_next_available_slot. A field is some value when the corresponding ISO
field is present and parses after the offset-strip quirk, none otherwise. -/
structure RawBooking where
  fromDate : Option Nat
  toDate : Option Nat

/-- Normalization of one raw record (the try-block body at
space_capacity_analysis.py lines 335-344 and 383-392): succeeds iff both
fields parse; a failing record raises KeyError or ValueError in the source,
which the enclosing loop catches and skips. -/
def normalizeBooking (b : RawBooking) : Option (Nat × Nat) :=
  match b.fromDate, b.toDate with
  | some f, some t => some (f, t)
  | _, _ => none

/-- Hours contributed by the operating intervals of one date
(space_capacity_analysis.py lines 304-307): sum of (close - open)/3600,
zero when the date is absent from the hours mapping. -/
def dayHours (hbd : Nat → Option (List (Nat × Nat))) (d : Nat) : ℚ :=
  match hbd d with
  | none => 0
  | some l => (l.map (fun p => ((p.2 : ℚ) - (p.1 : ℚ)) / 3600)).sum

/-- calculate_total_hours (space_capacity_analysis.py lines 282-311): walks
calendar dates from the date of start_date through the date of end_date
inclusive and sums the full operating hours of each date. -/
def calculate_total_hours (hbd : Nat → Option (List (Nat × Nat)))
    (startT endT : Nat) : ℚ :=
  ((List.range' (dateOf startT) (dateOf endT + 1 - dateOf startT)).map
    (dayHours hbd)).sum

/-- end_date.replace with hour 23, minute 59, second 59
(space_capacity_analysis.py line 332). -/
def endOfDayInclusive (t : Nat) : Nat := dateOf t * 86400 + 86399

/-- One iteration of the accumulation loop of calculate_booked_hours
(space_capacity_analysis.py lines 346-352): clamp the booking to the period
and accumulate duration and count when the clamped interval is nonempty. -/
def bookedStep (startT endInc : Nat) (acc : ℚ × Nat) (ft : Nat × Nat) :
    ℚ × Nat :=
  let bS := max ft.1 startT
  let bE := min ft.2 endInc
  if bS < bE then (acc.1 + ((bE : ℚ) - (bS : ℚ)) / 3600, acc.2 + 1) else acc

/-- calculate_booked_hours (space_capacity_analysis.py lines 314-357):
returns total booked hours and booking count for the period; records whose
normalization fails are skipped. -/
def calculate_booked_hours (bookings : List RawBooking) (startT endT : Nat) :
    ℚ × Nat :=
  (bookings.filterMap normalizeBooking).foldl
    (bookedStep startT (endOfDayInclusive endT)) (0, 0)

/-- The rate computation of analyze_space (space_capacity_analysis.py lines
512-514): booked / total * 100 guarded by total > 0. -/
def booking_rate (totalHours bookedHours : ℚ) : ℚ :=
  if totalHours > 0 then bookedHours / totalHours * 100 else 0

/-- The inline conflict test of find_next_available_slot
(space_capacity_analysis.py line 428):
check_time < booking_end and slot_end > booking_start. -/
def conflictsWith (slotStart slotEnd bookingStart bookingEnd : Nat) : Bool :=
  decide (slotStart < bookingEnd) && decide (slotEnd > bookingStart)

/-- The is_available loop at space_capacity_analysis.py lines 426-430: the
slot is available unless some booked interval passes the conflict test. -/
def slotIsAvailable (booked : List (Nat × Nat)) (slotStart slotEnd : Nat) :
    Bool :=
  !(booked.any fun b => conflictsWith slotStart slotEnd b.1 b.2)

/-- The minute replacement at space_capacity_analysis.py lines 414-416:
floor to the 15-minute grid and zero the seconds. Hour boundaries are
multiples of 900 seconds, so this is subtraction of t mod 900. -/
def floorToGrid (t : Nat) : Nat := t - t % 900

/-- Minute component of a timestamp. -/
def minuteOf (t : Nat) : Nat := t % 3600 / 60

/-- BOOKING_TIME_INCREMENTS (space_capacity_analysis.py line 45). -/
def BOOKING_TIME_INCREMENTS : List Nat := [0, 15, 30, 45]

/-- Candidate start alignment at space_capacity_analysis.py lines 414-421:
floor to the grid, then the re-alignment branch guarded by membership of the
minute in BOOKING_TIME_INCREMENTS. -/
def alignCheckTime (t : Nat) : Nat :=
  let t1 := floorToGrid t
  if minuteOf t1 ∈ BOOKING_TIME_INCREMENTS then t1
  else t1 - minuteOf t1 * 60 + 900 * (minuteOf t1 / 15 + 1)

/-- Fuel-bounded embedding of the slot-stepping while loop at
space_capacity_analysis.py lines 423-435. The fuel given by innerScan
strictly exceeds the possible number of 15-minute steps, so the fuel-zero
branch is unreachable there. -/
def innerScanAux (booked : List (Nat × Nat)) (durS closeT : Nat) :
    Nat → Nat → Option Nat
  | 0, _ => none
  | fuel + 1, t =>
    if t + durS ≤ closeT then
      if slotIsAvailable booked t (t + durS) then some t
      else innerScanAux booked durS closeT fuel (t + 900)
    else none

/-- The slot-stepping while loop: step the candidate start by 900 seconds
while the slot still fits before the close time, returning the first
available start. -/
def innerScan (booked : List (Nat × Nat)) (durS closeT t : Nat) : Option Nat :=
  innerScanAux booked durS closeT ((closeT + 1 - t) / 900 + 1) t

/-- The loop over the operating intervals of one date
(space_capacity_analysis.py lines 410-435), including the guard that the
interval open date equals the current date. -/
def scanIntervals (booked : List (Nat × Nat)) (durS startT d : Nat) :
    List (Nat × Nat) → Option Nat
  | [] => none
  | (o, c) :: rest =>
    if dateOf o = d then
      match innerScan booked durS c (alignCheckTime (max o startT)) with
      | some t => some t
      | none => scanIntervals booked durS startT d rest
    else scanIntervals booked durS startT d rest

/-- One iteration of the date loop of find_next_available_slot: a date
absent from the hours mapping is skipped (space_capacity_analysis.py lines
406-408). -/
def scanDay (hbd : Nat → Option (List (Nat × Nat)))
    (booked : List (Nat × Nat)) (durS startT d : Nat) : Option Nat :=
  match hbd d with
  | none => none
  | some ivs => scanIntervals booked durS startT d ivs

/-- The while loop over calendar dates (space_capacity_analysis.py lines
403-437), as a structural scan of the explicit date list. -/
def searchDays (hbd : Nat → Option (List (Nat × Nat)))
    (booked : List (Nat × Nat)) (durS startT : Nat) : List Nat → Option Nat
  | [] => none
  | d :: rest =>
    match scanDay hbd booked durS startT d with
    | some t => some t
    | none => searchDays hbd booked durS startT rest

/-- Lexicographic comparison of (start, end) pairs, the order used by
list.sort() on tuples in the source. -/
def lexLe (a b : Nat × Nat) : Bool :=
  decide (a.1 < b.1) || (decide (a.1 = b.1) && decide (a.2 ≤ b.2))

/-- Insertion into a lexicographically sorted list. -/
def insertLex (a : Nat × Nat) : List (Nat × Nat) → List (Nat × Nat)
  | [] => [a]
  | b :: l => if lexLe a b then a :: b :: l else b :: insertLex a l

/-- booked_intervals.sort() at space_capacity_analysis.py line 398. -/
def sortLex (l : List (Nat × Nat)) : List (Nat × Nat) := l.foldr insertLex []

/-- The normalized, sorted booked intervals built at
space_capacity_analysis.py lines 381-398. -/
def bookedOf (bookings : List RawBooking) : List (Nat × Nat) :=
  sortLex (bookings.filterMap normalizeBooking)

/-- The date range scanned by find_next_available_slot: from the date of
start_time through the date of start_time + 16 weeks, inclusive
(space_capacity_analysis.py lines 400-401). -/
def horizonDates (startT : Nat) : List Nat :=
  List.range' (dateOf startT)
    (dateOf (startT + 16 * 7 * 86400) + 1 - dateOf startT)

/-- find_next_available_slot (space_capacity_analysis.py lines 360-439).
The duration is taken in whole minutes, matching the source conversion
duration_minutes = int(duration_hours * 60). -/
def find_next_available_slot (hbd : Nat → Option (List (Nat × Nat)))
    (bookings : List RawBooking) (startT durMin : Nat) : Option Nat :=
  searchDays hbd (bookedOf bookings) (durMin * 60) startT (horizonDates startT)

/-- The list of 15-minute ticks visited by the slot-stepping while loop. -/
def slotTicks (durS closeT t : Nat) : List Nat :=
  if t + durS ≤ closeT then
    List.range' t ((closeT - (t + durS)) / 900 + 1) 900
  else []

/-- Availability of the slot starting at t of length durS seconds. -/
def availAt (booked : List (Nat × Nat)) (durS t : Nat) : Bool :=
  slotIsAvailable booked t (t + durS)

/-- Candidate starts generated inside one operating interval. -/
def intervalSlots (startT durS : Nat) (p : Nat × Nat) : List Nat :=
  slotTicks durS p.2 (alignCheckTime (max p.1 startT))

/-- Candidate starts generated for one date of the hours mapping. -/
def daySlots (hbd : Nat → Option (List (Nat × Nat))) (startT durS d : Nat) :
    List Nat :=
  match hbd d with
  | none => []
  | some ivs =>
    (ivs.filter fun p => decide (dateOf p.1 = d)).flatMap
      (intervalSlots startT durS)

/-- All candidate starts in chronological scan order over the horizon. -/
def allCandidates (hbd : Nat → Option (List (Nat × Nat)))
    (startT durS : Nat) : List Nat :=
  (horizonDates startT).flatMap (daySlots hbd startT durS)

/-- Availability under the buffered window described by the specification:
the buffered window from s - b to s + durS + b must not overlap any booked
interval under the half-open overlap predicate. Modelled from the spec
wording of the Availability Checker; the source applies no buffer. -/
def availableBufferedSpec (booked : List (Nat × Nat)) (s durS b : Nat) :
    Bool :=
  booked.all fun bk => !(decide (s - b < bk.2) && decide (bk.1 < s + durS + b))

/-- Booking count as described by the specification: the number of
normalized records whose start lies before the cutoff. Modelled from the
spec wording; the source counts period overlap instead. -/
def bookingCountSpec (bookings : List RawBooking) (cutoff : Nat) : Nat :=
  (bookings.filterMap normalizeBooking).countP fun ft => decide (ft.1 < cutoff)

/-- Contribution of one normalized booking to the booked-hours total. -/
def bookedContrib (startT endInc : Nat) (ft : Nat × Nat) : ℚ :=
  let bS := max ft.1 startT
  let bE := min ft.2 endInc
  if bS < bE then ((bE : ℚ) - (bS : ℚ)) / 3600 else 0

/-- Whether one normalized booking is counted: its clamp to the period is
nonempty. -/
def bookedCounted (startT endInc : Nat) (ft : Nat × Nat) : Bool :=
  decide (max ft.1 startT < min ft.2 endInc)

theorem bookedFold_eq (startT endInc : Nat) :
    ∀ (l : List (Nat × Nat)) (acc : ℚ × Nat),
      l.foldl (bookedStep startT endInc) acc =
        (acc.1 + (l.map (bookedContrib startT endInc)).sum,
         acc.2 + l.countP (bookedCounted startT endInc)) := by
  intro l
  induction l with
  | nil => intro acc; simp
  | cons a l ih =>
    intro acc
    rw [List.foldl_cons, ih]
    simp only [List.map_cons, List.sum_cons, List.countP_cons,
      bookedStep, bookedContrib, bookedCounted]
    by_cases h : max a.1 startT < min a.2 endInc
    · simp only [if_pos h, decide_eq_true_eq]
      rw [Prod.mk.injEq]
      constructor
      · ring
      · omega
    · simp only [if_neg h, decide_eq_true_eq]
      rw [Prod.mk.injEq]
      constructor
      · ring
      · omega

theorem calculate_booked_eq (bookings : List RawBooking) (startT endT : Nat) :
    calculate_booked_hours bookings startT endT =
      (((bookings.filterMap normalizeBooking).map
          (bookedContrib startT (endOfDayInclusive endT))).sum,
       (bookings.filterMap normalizeBooking).countP
          (bookedCounted startT (endOfDayInclusive endT))) := by
  unfold calculate_booked_hours
  rw [bookedFold_eq]
  simp

/-- C3. The conflict test used by the slot search is exactly the half-open
strict-overlap predicate: a conflict iff slot start is before booking end
and booking start is before slot end; a booking touching the slot at either
endpoint does not conflict. -/
theorem overlap_predicate_halfopen (aS aE bS bE : Nat) :
    (conflictsWith aS aE bS bE = true ↔ (aS < bE ∧ bS < aE)) ∧
    conflictsWith aS aE bS aS = false ∧
    conflictsWith aS aE aE bE = false := by
  refine ⟨?_, ?_, ?_⟩
  · simp [conflictsWith]
  · simp [conflictsWith]
  · simp [conflictsWith]

/-- C1 counterexample. At the spec example (booking 12:00 to 13:00, slot
09:00 of duration 3 h, buffer 15 min) the availability check of the source
classifies the slot as available, while the buffered check described by the
claim classifies it as blocked; the claimed equivalence is false. -/
theorem availability_buffer_counterexample :
    ¬ ((slotIsAvailable [(43200, 46800)] 32400 (32400 + 10800) = true) ↔
       (availableBufferedSpec [(43200, 46800)] 32400 10800 900 = true)) := by
  decide

/-- C1 amended. The availability check used when searching for slots applies
no buffer: a slot of start s and duration durS is available iff no booked
interval overlaps the unbuffered half-open window from s to s + durS; in
particular a slot ending exactly at a booking start is classified
available. -/
theorem availability_check_unbuffered (booked : List (Nat × Nat))
    (s durS : Nat) :
    (slotIsAvailable booked s (s + durS) = true ↔
      ∀ bk ∈ booked, ¬(s < bk.2 ∧ bk.1 < s + durS)) ∧
    ∀ e2, slotIsAvailable [(s + durS, e2)] s (s + durS) = true := by
  constructor
  · constructor
    · intro h bk hbk hc
      have h1 : booked.any (fun b => conflictsWith s (s + durS) b.1 b.2)
          = false := by
        simpa [slotIsAvailable] using h
      have h2 := List.any_eq_false.mp h1 bk hbk
      simp [conflictsWith] at h2
      omega
    · intro h
      simp only [slotIsAvailable, Bool.not_eq_true', List.any_eq_false]
      intro bk hbk
      have h3 := h bk hbk
      simp [conflictsWith]
      omega
  · intro e2
    simp [slotIsAvailable, conflictsWith]

/-- C6 counterexample. A booking lying entirely before the analysis start
has its start before the cutoff, so the claim counts it, but
calculate_booked_hours does not count it: with analysis start 1000 and
cutoff 2000, the booking from 0 to 10 yields count 0 while the start-based
count of the claim yields 1. -/
theorem booking_count_start_cutoff_counterexample :
    (calculate_booked_hours [RawBooking.mk (some 0) (some 10)] 1000 2000).2
        = 0 ∧
    bookingCountSpec [RawBooking.mk (some 0) (some 10)] 2000 = 1 := by
  constructor
  · rfl
  · rfl

/-- C6 amended. For every period, booking_count equals the number of
normalized booked records whose interval, clamped to the span from the
analysis start to second 86399 of the cutoff date, is nonempty - that is,
records overlapping the period - counted independently of slot-based
availability counting. -/
theorem booking_count_eq_overlap_count (bookings : List RawBooking)
    (startT endT : Nat) :
    (calculate_booked_hours bookings startT endT).2 =
      (bookings.filterMap normalizeBooking).countP
        (bookedCounted startT (endOfDayInclusive endT)) := by
  rw [calculate_booked_eq]

/-- C7. When the total available hours of a period are zero the computed
booking rate is exactly zero and no division occurs; when the total is
positive the rate equals booked divided by total times 100. -/
theorem booking_rate_no_div_by_zero (totalH bookedH : ℚ) :
    (totalH = 0 → booking_rate totalH bookedH = 0) ∧
    (0 < totalH → booking_rate totalH bookedH = bookedH / totalH * 100) := by
  constructor
  · intro h; simp [booking_rate, h]
  · intro h; simp [booking_rate, h]

theorem booking_rate_no_div_by_zero_witness :
    booking_rate 0 5 = 0 ∧ booking_rate 4 1 = 25 := by
  refine ⟨(booking_rate_no_div_by_zero 0 5).1 rfl, ?_⟩
  rw [(booking_rate_no_div_by_zero 4 1).2 (by norm_num)]
  norm_num

/-- C9. Period boundaries are calendar-day granular: both the available-hours
total and the booked-hours computation are unchanged when the period end
instant is moved anywhere within the same calendar date, and the booked
cutoff instant is second 86399 (23:59:59) of the cutoff date. -/
theorem period_boundaries_day_granular
    (hbd : Nat → Option (List (Nat × Nat))) (bookings : List RawBooking)
    (startT e1 e2 : Nat) (h : dateOf e1 = dateOf e2) :
    calculate_total_hours hbd startT e1 = calculate_total_hours hbd startT e2 ∧
    calculate_booked_hours bookings startT e1
        = calculate_booked_hours bookings startT e2 ∧
    endOfDayInclusive e1 = dateOf e1 * 86400 + 86399 := by
  refine ⟨?_, ?_, rfl⟩
  · unfold calculate_total_hours
    rw [h]
  · unfold calculate_booked_hours endOfDayInclusive
    rw [h]

theorem period_boundaries_day_granular_witness :
    dateOf 100 = dateOf 50000 ∧
    calculate_total_hours (fun d => if d = 0 then some [(100, 3700)] else none)
        0 100 =
      calculate_total_hours (fun d => if d = 0 then some [(100, 3700)] else none)
        0 50000 ∧
    calculate_booked_hours [RawBooking.mk (some 200) (some 500)] 0 100 =
      calculate_booked_hours [RawBooking.mk (some 200) (some 500)] 0 50000 := by
  have h := period_boundaries_day_granular
    (fun d => if d = 0 then some [(100, 3700)] else none)
    [RawBooking.mk (some 200) (some 500)] 0 100 50000 (by decide)
  exact ⟨by decide, h.1, h.2.1⟩

theorem slotTicks_nil {durS closeT t : Nat} (h : ¬ t + durS ≤ closeT) :
    slotTicks durS closeT t = [] := by
  unfold slotTicks
  rw [if_neg h]

theorem slotTicks_cons {durS closeT t : Nat} (h : t + durS ≤ closeT) :
    slotTicks durS closeT t = t :: slotTicks durS closeT (t + 900) := by
  unfold slotTicks
  rw [if_pos h]
  by_cases h2 : t + 900 + durS ≤ closeT
  · rw [if_pos h2]
    have h3 : (closeT - (t + durS)) / 900 + 1
        = ((closeT - (t + 900 + durS)) / 900 + 1) + 1 := by omega
    rw [h3, List.range'_succ]
  · rw [if_neg h2]
    have h3 : (closeT - (t + durS)) / 900 + 1 = 1 := by omega
    rw [h3]
    rfl

theorem innerScanAux_eq (booked : List (Nat × Nat)) (durS closeT : Nat) :
    ∀ (fuel t : Nat), closeT + 1 ≤ t + 900 * fuel →
      innerScanAux booked durS closeT fuel t =
        (slotTicks durS closeT t).find? (availAt booked durS) := by
  intro fuel
  induction fuel with
  | zero =>
    intro t h
    rw [slotTicks_nil (by omega)]
    rfl
  | succ fuel ih =>
    intro t h
    by_cases h1 : t + durS ≤ closeT
    · rw [slotTicks_cons h1, List.find?_cons]
      unfold innerScanAux
      rw [if_pos h1]
      cases h2 : slotIsAvailable booked t (t + durS)
      · have ha : availAt booked durS t = false := h2
        rw [ha]
        exact ih (t + 900) (by omega)
      · have ha : availAt booked durS t = true := h2
        rw [ha]
        rfl
    · unfold innerScanAux
      rw [if_neg h1, slotTicks_nil h1]
      rfl

theorem innerScan_eq (booked : List (Nat × Nat)) (durS closeT t : Nat) :
    innerScan booked durS closeT t =
      (slotTicks durS closeT t).find? (availAt booked durS) :=
  innerScanAux_eq booked durS closeT _ t (by omega)

theorem scanIntervals_eq (booked : List (Nat × Nat)) (durS startT d : Nat)
    (ivs : List (Nat × Nat)) :
    scanIntervals booked durS startT d ivs =
      ((ivs.filter fun p => decide (dateOf p.1 = d)).flatMap
        (intervalSlots startT durS)).find? (availAt booked durS) := by
  induction ivs with
  | nil => rfl
  | cons p rest ih =>
    obtain ⟨o, c⟩ := p
    by_cases hd : dateOf o = d
    · have hiv : intervalSlots startT durS (o, c)
          = slotTicks durS c (alignCheckTime (max o startT)) := rfl
      rw [List.filter_cons_of_pos (by simpa using hd), List.flatMap_cons,
        List.find?_append, hiv]
      simp only [scanIntervals, if_pos hd, innerScan_eq]
      cases hf : (slotTicks durS c (alignCheckTime (max o startT))).find?
          (availAt booked durS) with
      | none => exact ih
      | some t => rfl
    · rw [List.filter_cons_of_neg (by simpa using hd)]
      simp only [scanIntervals, if_neg hd]
      exact ih

theorem scanDay_eq (hbd : Nat → Option (List (Nat × Nat)))
    (booked : List (Nat × Nat)) (durS startT d : Nat) :
    scanDay hbd booked durS startT d =
      (daySlots hbd startT durS d).find? (availAt booked durS) := by
  unfold scanDay daySlots
  cases hbd d with
  | none => rfl
  | some ivs => exact scanIntervals_eq booked durS startT d ivs

theorem searchDays_eq (hbd : Nat → Option (List (Nat × Nat)))
    (booked : List (Nat × Nat)) (durS startT : Nat) (ds : List Nat) :
    searchDays hbd booked durS startT ds =
      ds.findSome? (scanDay hbd booked durS startT) := by
  induction ds with
  | nil => rfl
  | cons d rest ih =>
    rw [List.findSome?_cons]
    unfold searchDays
    cases scanDay hbd booked durS startT d
    · exact ih
    · rfl

theorem find_next_eq_find (hbd : Nat → Option (List (Nat × Nat)))
    (bookings : List RawBooking) (startT durMin : Nat) :
    find_next_available_slot hbd bookings startT durMin =
      (allCandidates hbd startT (durMin * 60)).find?
        (availAt (bookedOf bookings) (durMin * 60)) := by
  unfold find_next_available_slot allCandidates
  rw [searchDays_eq, List.find?_flatMap]
  have : scanDay hbd (bookedOf bookings) (durMin * 60) startT
      = fun d => (daySlots hbd startT (durMin * 60) d).find?
          (availAt (bookedOf bookings) (durMin * 60)) :=
    funext (scanDay_eq hbd (bookedOf bookings) (durMin * 60) startT)
  rw [this]

theorem horizonDates_eq (startT : Nat) :
    horizonDates startT = List.range' (dateOf startT) 113 := by
  unfold horizonDates dateOf
  congr 1
  omega

/-- C10. find_next_available_slot terminates and scans exactly the 113
calendar dates from the search start date through 16 weeks after it,
skipping dates absent from the hours mapping; the inner loop is the
15-minute-step scan of the ticks list of each interval. -/
theorem find_next_slot_horizon (hbd : Nat → Option (List (Nat × Nat)))
    (bookings : List RawBooking) (startT durMin : Nat) :
    find_next_available_slot hbd bookings startT durMin =
      (List.range' (dateOf startT) 113).findSome?
        (scanDay hbd (bookedOf bookings) (durMin * 60) startT) ∧
    ∀ booked durS closeT t, innerScan booked durS closeT t =
      (slotTicks durS closeT t).find? (availAt booked durS) := by
  constructor
  · unfold find_next_available_slot
    rw [searchDays_eq, horizonDates_eq]
  · exact innerScan_eq

theorem alignCheckTime_eq_floor (t : Nat) : alignCheckTime t = floorToGrid t := by
  unfold alignCheckTime
  have h : minuteOf (floorToGrid t) ∈ BOOKING_TIME_INCREMENTS := by
    unfold minuteOf floorToGrid BOOKING_TIME_INCREMENTS
    simp only [List.mem_cons, List.not_mem_nil, or_false]
    omega
  rw [if_pos h]

theorem floorToGrid_mono {u v : Nat} (h : u ≤ v) :
    floorToGrid u ≤ floorToGrid v := by
  unfold floorToGrid
  omega

theorem floorToGrid_eq_self {t : Nat} (h : t % 900 = 0) : floorToGrid t = t := by
  unfold floorToGrid
  omega

theorem mem_slotTicks {durS closeT t u : Nat}
    (h : u ∈ slotTicks durS closeT t) : t ≤ u ∧ u + durS ≤ closeT := by
  unfold slotTicks at h
  by_cases h1 : t + durS ≤ closeT
  · rw [if_pos h1, List.mem_range'] at h
    obtain ⟨i, hi, rfl⟩ := h
    omega
  · rw [if_neg h1] at h
    simp at h

/-- C4 counterexample. With an operating interval opening at 09:05 (not
aligned to the 15-minute grid) and closing at 12:00, and a required duration
of 3 hours, the engine proposes the slot 09:00: a slot starting before the
opening time, produced from an interval shorter than the duration. -/
theorem slot_before_open_counterexample :
    find_next_available_slot
        (fun d => if d = 0 then some [(32700, 43200)] else none)
        [] 0 180 = some 32400 ∧
    32400 < 32700 ∧ 43200 - 32700 < 180 * 60 := by
  refine ⟨by decide, by decide, by decide⟩

/-- C4 amended. Every slot proposed from an operating interval satisfies
slot start + duration at most the close time, unconditionally; when the
opening time is aligned to the 15-minute grid, every proposed slot also
starts no earlier than the opening time, and an interval shorter than the
duration yields no slot. -/
theorem slot_generator_bounds (booked : List (Nat × Nat))
    (durS o c startT : Nat) :
    (∀ t, innerScan booked durS c (alignCheckTime (max o startT)) = some t →
      t + durS ≤ c) ∧
    (o % 900 = 0 →
      (∀ t, innerScan booked durS c (alignCheckTime (max o startT)) = some t →
        o ≤ t) ∧
      (c < o + durS →
        innerScan booked durS c (alignCheckTime (max o startT)) = none)) := by
  constructor
  · intro t ht
    rw [innerScan_eq] at ht
    exact (mem_slotTicks (List.mem_of_find?_eq_some ht)).2
  · intro ho
    have halign : o ≤ alignCheckTime (max o startT) := by
      rw [alignCheckTime_eq_floor]
      calc o = floorToGrid o := (floorToGrid_eq_self ho).symm
        _ ≤ floorToGrid (max o startT) := floorToGrid_mono (le_max_left o startT)
    constructor
    · intro t ht
      rw [innerScan_eq] at ht
      exact le_trans halign (mem_slotTicks (List.mem_of_find?_eq_some ht)).1
    · intro hshort
      rw [innerScan_eq, slotTicks_nil (by omega)]
      rfl

theorem slot_generator_bounds_witness :
    32400 % 900 = 0 ∧
    innerScan [] 10800 36000 (alignCheckTime (max 32400 0)) = none :=
  ⟨by decide,
    ((slot_generator_bounds [] 10800 32400 36000 0).2 (by decide)).2 (by decide)⟩

/-- C2 counterexample. Searching from 09:07 (not aligned to the 15-minute
grid) with a free 09:00 to 17:00 day, the function returns the slot 09:00,
which starts before the search start instant. -/
theorem find_next_slot_before_now_counterexample :
    find_next_available_slot
        (fun d => if d = 0 then some [(32400, 61200)] else none)
        [] 32820 180 = some 32400 ∧
    ¬ (32820 ≤ 32400) := by
  refine ⟨by decide, by decide⟩

/-- Well-formedness of an hours mapping, following the data-model invariants
of the specification: every interval listed under a date opens on that date,
closes within it, opens on the 15-minute grid, and the intervals of a date
are ordered and disjoint. -/
def WFHours (hbd : Nat → Option (List (Nat × Nat))) : Prop :=
  ∀ d l, hbd d = some l →
    (∀ p ∈ l, dateOf p.1 = d ∧ p.2 ≤ (d + 1) * 86400 ∧ p.1 % 900 = 0) ∧
    l.Pairwise (fun a b => a.2 ≤ b.1)

theorem pairwise_lt_step (step : Nat) (hs : 0 < step) (n s : Nat) :
    (List.range' s n step).Pairwise (· < ·) := by
  induction n generalizing s with
  | zero => simp
  | succ n ih =>
    rw [List.range'_succ, List.pairwise_cons]
    refine ⟨?_, ih (s + step)⟩
    intro m hm
    rw [List.mem_range'] at hm
    obtain ⟨i, hi, rfl⟩ := hm
    omega

theorem pairwise_flatMap {α β : Type} {R : β → β → Prop} (l : List α)
    (f : α → List β) (h1 : ∀ a ∈ l, (f a).Pairwise R)
    (h2 : l.Pairwise fun a b => ∀ x ∈ f a, ∀ y ∈ f b, R x y) :
    (l.flatMap f).Pairwise R := by
  induction l with
  | nil => simp
  | cons a l ih =>
    rw [List.flatMap_cons, List.pairwise_append]
    rw [List.pairwise_cons] at h2
    refine ⟨h1 a (List.mem_cons_self a l),
      ih (fun b hb => h1 b (List.mem_cons_of_mem a hb)) h2.2, ?_⟩
    intro x hx y hy
    rw [List.mem_flatMap] at hy
    obtain ⟨b, hb, hyb⟩ := hy
    exact h2.1 b hb x hx y hyb

theorem mem_intervalSlots_bounds {startT durS u : Nat} {p : Nat × Nat}
    (hp : p.1 % 900 = 0) (hst : startT % 900 = 0)
    (hu : u ∈ intervalSlots startT durS p) :
    p.1 ≤ u ∧ startT ≤ u ∧ u + durS ≤ p.2 := by
  unfold intervalSlots at hu
  have hb := mem_slotTicks hu
  have hmax : (max p.1 startT) % 900 = 0 := by
    rcases max_choice p.1 startT with h | h <;> rw [h]
    · exact hp
    · exact hst
  rw [alignCheckTime_eq_floor, floorToGrid_eq_self hmax] at hb
  exact ⟨le_trans (le_max_left p.1 startT) hb.1,
    le_trans (le_max_right p.1 startT) hb.1, hb.2⟩

theorem mem_daySlots_bounds {hbd : Nat → Option (List (Nat × Nat))}
    {startT durS d u : Nat} (hwf : WFHours hbd) (hst : startT % 900 = 0)
    (hu : u ∈ daySlots hbd startT durS d) :
    startT ≤ u ∧ d * 86400 ≤ u ∧ u + durS ≤ (d + 1) * 86400 := by
  unfold daySlots at hu
  cases hh : hbd d with
  | none => rw [hh] at hu; simp at hu
  | some ivs =>
    rw [hh] at hu
    rw [List.mem_flatMap] at hu
    obtain ⟨p, hpmem, hup⟩ := hu
    have hw := (hwf d ivs hh).1 p (List.mem_of_mem_filter hpmem)
    have hb := mem_intervalSlots_bounds hw.2.2 hst hup
    refine ⟨hb.2.1, ?_, le_trans hb.2.2 hw.2.1⟩
    have hdo : d * 86400 ≤ p.1 := by
      have := hw.1
      unfold dateOf at this
      omega
    exact le_trans hdo hb.1

theorem pairwise_daySlots {hbd : Nat → Option (List (Nat × Nat))}
    {startT durS d : Nat} (hwf : WFHours hbd) (hst : startT % 900 = 0)
    (hdur : 0 < durS) :
    (daySlots hbd startT durS d).Pairwise (· < ·) := by
  unfold daySlots
  cases hh : hbd d with
  | none => simp
  | some ivs =>
    apply pairwise_flatMap
    · intro p hp
      unfold intervalSlots slotTicks
      split
      · exact pairwise_lt_step 900 (by omega) _ _
      · simp
    · have hpw : (ivs.filter fun p => decide (dateOf p.1 = d)).Pairwise
          (fun a b => a.2 ≤ b.1) :=
        List.Pairwise.sublist (List.filter_sublist ivs) (hwf d ivs hh).2
      refine hpw.imp_of_mem ?_
      intro a b ha hb hab x hx y hy
      have hwa := (hwf d ivs hh).1 a (List.mem_of_mem_filter ha)
      have hwb := (hwf d ivs hh).1 b (List.mem_of_mem_filter hb)
      have hxa := mem_intervalSlots_bounds hwa.2.2 hst hx
      have hyb := mem_intervalSlots_bounds hwb.2.2 hst hy
      omega

theorem pairwise_allCandidates (hbd : Nat → Option (List (Nat × Nat)))
    (startT durS : Nat) (hwf : WFHours hbd) (hst : startT % 900 = 0)
    (hdur : 0 < durS) :
    (allCandidates hbd startT durS).Pairwise (· < ·) := by
  unfold allCandidates
  apply pairwise_flatMap
  · intro d _
    exact pairwise_daySlots hwf hst hdur
  · have hdays : (horizonDates startT).Pairwise (· < ·) := by
      unfold horizonDates
      exact pairwise_lt_step 1 (by omega) _ _
    apply List.Pairwise.imp ?_ hdays
    intro d1 d2 h12 x hx y hy
    have hb1 := mem_daySlots_bounds hwf hst hx
    have hb2 := mem_daySlots_bounds hwf hst hy
    have hmul : (d1 + 1) * 86400 ≤ d2 * 86400 :=
      Nat.mul_le_mul_right 86400 h12
    omega

theorem mem_allCandidates_ge {hbd : Nat → Option (List (Nat × Nat))}
    {startT durS u : Nat} (hwf : WFHours hbd) (hst : startT % 900 = 0)
    (hu : u ∈ allCandidates hbd startT durS) : startT ≤ u := by
  unfold allCandidates at hu
  rw [List.mem_flatMap] at hu
  obtain ⟨d, _, hud⟩ := hu
  exact (mem_daySlots_bounds hwf hst hud).1

theorem find?_sorted_min {p : Nat → Bool} :
    ∀ {l : List Nat}, l.Pairwise (· < ·) → ∀ {t}, l.find? p = some t →
      ∀ u ∈ l, p u = true → t ≤ u := by
  intro l
  induction l with
  | nil =>
    intro _ t h
    simp at h
  | cons a l ih =>
    intro hpw t h u hu hpu
    rw [List.pairwise_cons] at hpw
    cases hpa : p a
    · simp only [List.find?_cons, hpa] at h
      rcases List.mem_cons.mp hu with rfl | hu2
      · rw [hpa] at hpu
        cases hpu
      · exact ih hpw.2 h u hu2 hpu
    · simp only [List.find?_cons, hpa] at h
      have hta : a = t := Option.some.inj h
      rcases List.mem_cons.mp hu with rfl | hu2
      · omega
      · have := hpw.1 u hu2
        omega

/-- C2 amended. When the search start instant and the opening times are
aligned to the 15-minute grid, the hours mapping is well-formed, and the
duration is positive, find_next_available_slot returns the chronologically
earliest candidate slot that starts no earlier than the search start and
passes the availability check - never a later one when an earlier one
qualifies - and the none sentinel exactly when no candidate in the bounded
horizon passes. Without the alignment hypothesis the returned slot can start
before the search start, because the candidate start is rounded down to the
grid (see the counterexample). -/
theorem find_next_slot_earliest (hbd : Nat → Option (List (Nat × Nat)))
    (bookings : List RawBooking) (startT durMin : Nat)
    (hwf : WFHours hbd) (hst : startT % 900 = 0) (hdur : 0 < durMin) :
    (∀ t, find_next_available_slot hbd bookings startT durMin = some t →
      t ∈ allCandidates hbd startT (durMin * 60) ∧
      availAt (bookedOf bookings) (durMin * 60) t = true ∧
      startT ≤ t ∧
      ∀ u ∈ allCandidates hbd startT (durMin * 60),
        availAt (bookedOf bookings) (durMin * 60) u = true → t ≤ u) ∧
    (find_next_available_slot hbd bookings startT durMin = none →
      ∀ u ∈ allCandidates hbd startT (durMin * 60),
        availAt (bookedOf bookings) (durMin * 60) u = false) := by
  have heq := find_next_eq_find hbd bookings startT durMin
  constructor
  · intro t ht
    rw [heq] at ht
    have hmem := List.mem_of_find?_eq_some ht
    refine ⟨hmem, List.find?_some ht, mem_allCandidates_ge hwf hst hmem, ?_⟩
    exact find?_sorted_min
      (pairwise_allCandidates hbd startT (durMin * 60) hwf hst (by omega)) ht
  · intro hn u hu
    rw [heq] at hn
    have hfu := List.find?_eq_none.mp hn u hu
    cases hav : availAt (bookedOf bookings) (durMin * 60) u
    · rfl
    · exact absurd hav hfu

/-- A concrete well-formed hours mapping: one interval 09:00 to 17:00 on
day 0, used by the witnesses. -/
def hbdSample : Nat → Option (List (Nat × Nat)) :=
  fun d => if d = 0 then some [(32400, 61200)] else none

theorem hbdSample_wf : WFHours hbdSample := by
  intro d l h
  unfold hbdSample at h
  by_cases hd : d = 0
  · subst hd
    rw [if_pos rfl] at h
    have hl : l = [(32400, 61200)] := (Option.some.inj h).symm
    subst hl
    constructor
    · intro p hp
      rw [List.mem_singleton] at hp
      subst hp
      refine ⟨by decide, by decide, by decide⟩
    · exact List.pairwise_singleton _ _
  · rw [if_neg hd] at h
    cases h

theorem find_next_slot_earliest_witness :
    32400 ∈ allCandidates hbdSample 28800 (180 * 60) ∧ 28800 ≤ 32400 := by
  have h := (find_next_slot_earliest hbdSample [] 28800 180 hbdSample_wf
      (by decide) (by decide)).1 32400 (by decide)
  exact ⟨h.1, h.2.2.1⟩

theorem dayHours_nonneg {hbd : Nat → Option (List (Nat × Nat))} {d : Nat}
    (hwf : ∀ e l, hbd e = some l → ∀ p ∈ l, p.1 ≤ p.2) :
    0 ≤ dayHours hbd d := by
  unfold dayHours
  cases hh : hbd d with
  | none => exact le_refl 0
  | some l =>
    apply List.sum_nonneg
    intro x hx
    rw [List.mem_map] at hx
    obtain ⟨p, hp, rfl⟩ := hx
    have hle : (p.1 : ℚ) ≤ (p.2 : ℚ) := by exact_mod_cast hwf d l hh p hp
    have : (0 : ℚ) ≤ (p.2 : ℚ) - (p.1 : ℚ) := by linarith
    positivity

theorem calculate_total_hours_mono {hbd : Nat → Option (List (Nat × Nat))}
    {startT e1 e2 : Nat}
    (hwf : ∀ e l, hbd e = some l → ∀ p ∈ l, p.1 ≤ p.2) (h : e1 ≤ e2) :
    calculate_total_hours hbd startT e1 ≤ calculate_total_hours hbd startT e2 := by
  unfold calculate_total_hours
  have hd : dateOf e1 ≤ dateOf e2 := by
    unfold dateOf
    omega
  set s := dateOf startT with hs
  set n1 := dateOf e1 + 1 - s with hn1
  set n2 := dateOf e2 + 1 - s with hn2
  have hn : n1 ≤ n2 := by omega
  have hsplit := List.range'_append s n1 (n2 - n1) 1
  have h2 : n2 - n1 + n1 = n2 := by omega
  rw [h2] at hsplit
  rw [← hsplit, List.map_append, List.sum_append]
  have : 0 ≤ ((List.range' (s + 1 * n1) (n2 - n1)).map (dayHours hbd)).sum := by
    apply List.sum_nonneg
    intro x hx
    rw [List.mem_map] at hx
    obtain ⟨d, _, rfl⟩ := hx
    exact dayHours_nonneg hwf
  linarith

theorem bookedContrib_nonneg (startT endInc : Nat) (ft : Nat × Nat) :
    0 ≤ bookedContrib startT endInc ft := by
  unfold bookedContrib
  simp only
  split
  · rename_i h
    have : ((max ft.1 startT : Nat) : ℚ) ≤ ((min ft.2 endInc : Nat) : ℚ) := by
      exact_mod_cast le_of_lt h
    have h0 : (0 : ℚ) ≤ ((min ft.2 endInc : Nat) : ℚ) - ((max ft.1 startT : Nat) : ℚ) := by
      linarith
    positivity
  · exact le_refl 0

theorem bookedContrib_mono {i1 i2 : Nat} (startT : Nat) (ft : Nat × Nat)
    (h : i1 ≤ i2) :
    bookedContrib startT i1 ft ≤ bookedContrib startT i2 ft := by
  have hmin : min ft.2 i1 ≤ min ft.2 i2 := min_le_min (le_refl ft.2) h
  unfold bookedContrib
  simp only
  by_cases h1 : max ft.1 startT < min ft.2 i1
  · have h2 : max ft.1 startT < min ft.2 i2 := lt_of_lt_of_le h1 hmin
    rw [if_pos h1, if_pos h2]
    have hc : ((min ft.2 i1 : Nat) : ℚ) ≤ ((min ft.2 i2 : Nat) : ℚ) := by
      exact_mod_cast hmin
    linarith
  · rw [if_neg h1]
    exact bookedContrib_nonneg startT i2 ft

theorem bookedCounted_mono {i1 i2 : Nat} (startT : Nat) (ft : Nat × Nat)
    (h : i1 ≤ i2) (hc : bookedCounted startT i1 ft = true) :
    bookedCounted startT i2 ft = true := by
  have hmin : min ft.2 i1 ≤ min ft.2 i2 := min_le_min (le_refl ft.2) h
  unfold bookedCounted at hc ⊢
  rw [decide_eq_true_eq] at hc ⊢
  omega

theorem calculate_booked_mono (bookings : List RawBooking)
    {startT e1 e2 : Nat} (h : e1 ≤ e2) :
    (calculate_booked_hours bookings startT e1).1 ≤
      (calculate_booked_hours bookings startT e2).1 ∧
    (calculate_booked_hours bookings startT e1).2 ≤
      (calculate_booked_hours bookings startT e2).2 := by
  rw [calculate_booked_eq, calculate_booked_eq]
  have hi : endOfDayInclusive e1 ≤ endOfDayInclusive e2 := by
    unfold endOfDayInclusive dateOf
    omega
  constructor
  · apply List.sum_le_sum
    intro ft _
    exact bookedContrib_mono startT ft hi
  · apply List.countP_mono_left
    intro ft _ hp
    exact bookedCounted_mono startT ft hi hp

/-- C5. For a fixed hours mapping with well-ordered intervals, fixed
bookings, and a fixed analysis start, the per-period metrics at the period
ends used by analyze_space (the minimum of start plus the window length and
the analysis end) are monotonically non-decreasing in the window length:
available hours, booked hours, and booking count each never decrease when
the window grows. -/
theorem period_metrics_monotone (hbd : Nat → Option (List (Nat × Nat)))
    (bookings : List RawBooking) (analysisStart analysisEnd d1 d2 : Nat)
    (hwf : ∀ e l, hbd e = some l → ∀ p ∈ l, p.1 ≤ p.2) (h12 : d1 ≤ d2) :
    calculate_total_hours hbd analysisStart
        (min (analysisStart + d1) analysisEnd) ≤
      calculate_total_hours hbd analysisStart
        (min (analysisStart + d2) analysisEnd) ∧
    (calculate_booked_hours bookings analysisStart
        (min (analysisStart + d1) analysisEnd)).1 ≤
      (calculate_booked_hours bookings analysisStart
        (min (analysisStart + d2) analysisEnd)).1 ∧
    (calculate_booked_hours bookings analysisStart
        (min (analysisStart + d1) analysisEnd)).2 ≤
      (calculate_booked_hours bookings analysisStart
        (min (analysisStart + d2) analysisEnd)).2 := by
  have he : min (analysisStart + d1) analysisEnd ≤
      min (analysisStart + d2) analysisEnd :=
    min_le_min (by omega) (le_refl analysisEnd)
  exact ⟨calculate_total_hours_mono hwf he,
    (calculate_booked_mono bookings he).1,
    (calculate_booked_mono bookings he).2⟩

theorem hbdSample_openclose :
    ∀ e l, hbdSample e = some l → ∀ p ∈ l, p.1 ≤ p.2 := by
  intro e l h p hp
  unfold hbdSample at h
  by_cases he : e = 0
  · rw [if_pos he] at h
    have hl : l = [(32400, 61200)] := (Option.some.inj h).symm
    subst hl
    rw [List.mem_singleton] at hp
    subst hp
    decide
  · rw [if_neg he] at h
    cases h

theorem period_metrics_monotone_witness :
    calculate_total_hours hbdSample 0 (min (0 + 604800) 7776000) ≤
      calculate_total_hours hbdSample 0 (min (0 + 1209600) 7776000) ∧
    (calculate_booked_hours [RawBooking.mk (some 32400) (some 36000)] 0
        (min (0 + 604800) 7776000)).1 ≤
      (calculate_booked_hours [RawBooking.mk (some 32400) (some 36000)] 0
        (min (0 + 1209600) 7776000)).1 ∧
    (calculate_booked_hours [RawBooking.mk (some 32400) (some 36000)] 0
        (min (0 + 604800) 7776000)).2 ≤
      (calculate_booked_hours [RawBooking.mk (some 32400) (some 36000)] 0
        (min (0 + 1209600) 7776000)).2 :=
  period_metrics_monotone hbdSample
    [RawBooking.mk (some 32400) (some 36000)] 0 7776000 604800 1209600
    hbdSample_openclose (by omega)

/-- C8. A record whose normalization fails is skipped individually: both the
booked-hours aggregation and the next-slot search produce the same result as
if the record were absent, and both are total functions (no exception
escapes). -/
theorem malformed_booking_skipped (hbd : Nat → Option (List (Nat × Nat)))
    (l1 l2 : List RawBooking) (r : RawBooking)
    (startT endT searchT durMin : Nat) (h : normalizeBooking r = none) :
    calculate_booked_hours (l1 ++ r :: l2) startT endT =
      calculate_booked_hours (l1 ++ l2) startT endT ∧
    find_next_available_slot hbd (l1 ++ r :: l2) searchT durMin =
      find_next_available_slot hbd (l1 ++ l2) searchT durMin := by
  have hf : (l1 ++ r :: l2).filterMap normalizeBooking
      = (l1 ++ l2).filterMap normalizeBooking := by
    rw [List.filterMap_append, List.filterMap_append]
    congr 1
    rw [List.filterMap_cons, h]
  constructor
  · unfold calculate_booked_hours
    rw [hf]
  · unfold find_next_available_slot bookedOf
    rw [hf]

theorem malformed_booking_skipped_witness :
    normalizeBooking (RawBooking.mk none (some 36000)) = none ∧
    calculate_booked_hours
        ([RawBooking.mk (some 32400) (some 36000)] ++
          RawBooking.mk none (some 36000) :: []) 0 604800 =
      calculate_booked_hours
        ([RawBooking.mk (some 32400) (some 36000)] ++ []) 0 604800 ∧
    find_next_available_slot hbdSample
        ([RawBooking.mk (some 32400) (some 36000)] ++
          RawBooking.mk none (some 36000) :: []) 0 180 =
      find_next_available_slot hbdSample
        ([RawBooking.mk (some 32400) (some 36000)] ++ []) 0 180 :=
  ⟨rfl,
    (malformed_booking_skipped hbdSample [RawBooking.mk (some 32400) (some 36000)]
      [] (RawBooking.mk none (some 36000)) 0 604800 0 180 rfl).1,
    (malformed_booking_skipped hbdSample [RawBooking.mk (some 32400) (some 36000)]
      [] (RawBooking.mk none (some 36000)) 0 604800 0 180 rfl).2⟩

theorem availability_check_unbuffered_witness :
    slotIsAvailable [(43200, 46800)] 32400 (32400 + 10800) = true :=
  ((availability_check_unbuffered [(43200, 46800)] 32400 10800).1).mpr
    (by decide)

theorem overlap_predicate_halfopen_witness :
    conflictsWith 10 20 5 10 = false :=
  (overlap_predicate_halfopen 10 20 5 99).2.1

theorem booking_count_eq_overlap_count_witness :
    (calculate_booked_hours [RawBooking.mk (some 0) (some 10)] 1000 2000).2 =
      ([RawBooking.mk (some 0) (some 10)].filterMap normalizeBooking).countP
        (bookedCounted 1000 (endOfDayInclusive 2000)) :=
  booking_count_eq_overlap_count [RawBooking.mk (some 0) (some 10)] 1000 2000

theorem find_next_slot_horizon_witness :
    find_next_available_slot hbdSample [] 0 180 =
      (List.range' (dateOf 0) 113).findSome?
        (scanDay hbdSample (bookedOf []) (180 * 60) 0) :=
  (find_next_slot_horizon hbdSample [] 0 180).1
